import Mathlib

/-!
Verification of the Bom-Dot--Com utensil-detection repository.

This file shallowly embeds, from the Python sources:
  * the length-prefixed frame transport used by `src/pi_client.py`
    (receive loop, lines 106-136) and `src/server_mac.py`
    (receive loop, lines 169-189): an 8-byte little-endian unsigned
    length prefix (`struct.pack("Q", len(data))`) followed by the payload,
    reassembled from arbitrary socket chunks;
  * the attention tracker of `src/pi_client.py` lines 203-260
    (identical logic in `src/utensil_detector.py` lines 218-282):
    the three-way scene label, the `utensil_first_seen` and
    `last_alert_time` dictionaries, the 2.0 s unattended threshold and
    the 5.0 s alert cooldown;
  * the server session/accept loop of `src/server_mac.py` lines 158-222.

Timestamps (Python floats from `time.time()`) are modelled as rationals;
bytes are modelled as natural numbers; Python dicts keyed by class-name
strings are modelled as association lists with dict update semantics.
-/

namespace BomDotCom

/-! ## FrameChannel: length-prefixed framing over a chunked byte stream -/

/-- The 8-byte little-endian length prefix produced by
`struct.pack("Q", n)` (native byte order on the deployment machines is
little-endian), one byte per entry. -/
def encodeLen (n : Nat) : List Nat :=
  [n % 256, n / 256 % 256, n / 65536 % 256, n / 16777216 % 256,
   n / 4294967296 % 256, n / 1099511627776 % 256,
   n / 281474976710656 % 256, n / 72057594037927936 % 256]

/-- Little-endian decoding of a byte list, as done by
`struct.unpack("Q", packed_msg_size)[0]`. -/
def decodeLen (bs : List Nat) : Nat :=
  bs.foldr (fun b acc => b + 256 * acc) 0

theorem encodeLen_length (n : Nat) : (encodeLen n).length = 8 := rfl

theorem decodeLen_encodeLen (n : Nat) (h : n < 2 ^ 64) :
    decodeLen (encodeLen n) = n := by
  have h' : n < 18446744073709551616 := by
    have : (2 : Nat) ^ 64 = 18446744073709551616 := by norm_num
    omega
  simp only [decodeLen, encodeLen, List.foldr]
  omega

/-- The prefix-accumulation loop of `server_mac.py` lines 171-175 (and
`pi_client.py` lines 122-126): `while len(data) < payload_size`, read one
chunk per iteration; a `recv` that returns no bytes (peer closed, the
chunk list is exhausted) breaks out of the loop, possibly leaving `data`
short. Returns the accumulated buffer and the unconsumed chunks. -/
def recvPrefix (chunks : List (List Nat)) (data : List Nat) (target : Nat) :
    List Nat × List (List Nat) :=
  match chunks with
  | [] => (data, [])
  | c :: rest =>
    if target ≤ data.length then (data, c :: rest)
    else recvPrefix rest (data ++ c) target

/-- The payload-accumulation loop of `server_mac.py` lines 185-186 (and
`pi_client.py` lines 132-133): `while len(data) < msg_size: data +=
sock.recv(4096)`. Unlike the prefix loop it never tests for an empty
read, so once the peer has closed (the chunk list is exhausted) `recv`
yields empty byte strings forever and the loop never terminates; that
divergence is modelled by `none`. -/
def recvPayload (chunks : List (List Nat)) (data : List Nat) (target : Nat) :
    Option (List Nat × List (List Nat)) :=
  match chunks with
  | [] => if target ≤ data.length then some (data, []) else none
  | c :: rest =>
    if target ≤ data.length then some (data, c :: rest)
    else recvPayload rest (data ++ c) target

/-- Outcome of one `receive` on the framed channel: a complete payload
together with the leftover buffered bytes and unconsumed chunks, a clean
close detected while reading the length prefix, or the non-terminating
spin of the payload loop. -/
inductive RecvOutcome where
  | ok (payload leftover : List Nat) (chunks : List (List Nat))
  | closedAtPrefix (buffered : List Nat)
  | hang
  deriving DecidableEq

/-- One message receive, `server_mac.py` lines 171-189: accumulate 8
bytes of length prefix, decode it, accumulate `msg_size` payload bytes,
split off the payload. (`pi_client.py` lines 119-136 is the same
algorithm except that it starts each call with an empty buffer and
discards the leftover; on the inputs considered here the leftover is
empty, so the two coincide.) -/
def receiveMsg (data : List Nat) (chunks : List (List Nat)) : RecvOutcome :=
  if (recvPrefix chunks data 8).1.length < 8 then
    .closedAtPrefix (recvPrefix chunks data 8).1
  else
    match recvPayload (recvPrefix chunks data 8).2
        ((recvPrefix chunks data 8).1.drop 8)
        (decodeLen ((recvPrefix chunks data 8).1.take 8)) with
    | none => .hang
    | some r2 =>
        .ok (r2.1.take (decodeLen ((recvPrefix chunks data 8).1.take 8)))
          (r2.1.drop (decodeLen ((recvPrefix chunks data 8).1.take 8))) r2.2

theorem recvPrefix_nil (data : List Nat) (target : Nat) :
    recvPrefix [] data target = (data, []) := rfl

theorem recvPrefix_cons (c : List Nat) (rest : List (List Nat))
    (data : List Nat) (target : Nat) :
    recvPrefix (c :: rest) data target =
      if target ≤ data.length then (data, c :: rest)
      else recvPrefix rest (data ++ c) target := rfl

theorem recvPayload_nil (data : List Nat) (target : Nat) :
    recvPayload [] data target =
      if target ≤ data.length then some (data, []) else none := rfl

theorem recvPayload_cons (c : List Nat) (rest : List (List Nat))
    (data : List Nat) (target : Nat) :
    recvPayload (c :: rest) data target =
      if target ≤ data.length then some (data, c :: rest)
      else recvPayload rest (data ++ c) target := rfl

theorem recvPrefix_spec (chunks : List (List Nat)) (data : List Nat)
    (target : Nat) :
    ∃ consumed,
      chunks = consumed ++ (recvPrefix chunks data target).2 ∧
      (recvPrefix chunks data target).1 = data ++ consumed.flatten := by
  induction chunks generalizing data with
  | nil => exact ⟨[], by simp [recvPrefix_nil]⟩
  | cons c rest ih =>
    by_cases h : target ≤ data.length
    · exact ⟨[], by simp [recvPrefix_cons, h]⟩
    · obtain ⟨consumed, h1, h2⟩ := ih (data ++ c)
      refine ⟨c :: consumed, ?_, ?_⟩
      · simp only [recvPrefix_cons, if_neg h]
        simpa using h1
      · simp only [recvPrefix_cons, if_neg h, h2]
        simp

theorem recvPrefix_reaches (chunks : List (List Nat)) (data : List Nat)
    (target : Nat) (h : target ≤ data.length + chunks.flatten.length) :
    target ≤ (recvPrefix chunks data target).1.length := by
  induction chunks generalizing data with
  | nil =>
    simp only [recvPrefix_nil]
    simp at h
    exact h
  | cons c rest ih =>
    by_cases hc : target ≤ data.length
    · simp [recvPrefix_cons, hc]
    · simp only [recvPrefix_cons, if_neg hc]
      apply ih
      simp at h ⊢
      omega

theorem recvPayload_spec (chunks : List (List Nat)) (data : List Nat)
    (target : Nat) (h : target ≤ data.length + chunks.flatten.length) :
    ∃ consumed d2 ch2,
      recvPayload chunks data target = some (d2, ch2) ∧
      chunks = consumed ++ ch2 ∧ d2 = data ++ consumed.flatten ∧
      target ≤ d2.length := by
  induction chunks generalizing data with
  | nil =>
    simp only [List.flatten_nil, List.length_nil, Nat.add_zero] at h
    exact ⟨[], data, [], by simp [recvPayload_nil, h], rfl, by simp, h⟩
  | cons c rest ih =>
    by_cases hc : target ≤ data.length
    · exact ⟨[], data, c :: rest, by simp [recvPayload_cons, hc], rfl,
        by simp, hc⟩
    · have h' : target ≤ (data ++ c).length + rest.flatten.length := by
        simp at h ⊢
        omega
      obtain ⟨consumed, d2, ch2, h1, h2, h3, h4⟩ := ih (data ++ c) h'
      refine ⟨c :: consumed, d2, ch2, ?_, ?_, ?_, h4⟩
      · simp only [recvPayload_cons, if_neg hc]
        exact h1
      · simp [h2]
      · simp [h3]

/-- C3: for every payload `P` and every partition of the framed bytes
(8-byte length prefix followed by `P`) into consecutive non-empty
chunks of arbitrary sizes, the receiver's reassembly loop reconstructs
exactly `P`, consuming the whole stream with nothing left over. -/
theorem frame_roundtrip (P : List Nat) (chunks : List (List Nat))
    (hlen : P.length < 2 ^ 64)
    (hne : ∀ c ∈ chunks, c ≠ [])
    (hjoin : chunks.flatten = encodeLen P.length ++ P) :
    receiveMsg [] chunks = RecvOutcome.ok P [] [] := by
  obtain ⟨consumed, hchunks, hd1⟩ := recvPrefix_spec chunks [] 8
  have htot : chunks.flatten.length = 8 + P.length := by
    rw [hjoin]
    simp [encodeLen]
    omega
  have hreach : 8 ≤ (recvPrefix chunks [] 8).1.length := by
    apply recvPrefix_reaches
    omega
  have hfull : (recvPrefix chunks [] 8).1 ++ (recvPrefix chunks [] 8).2.flatten
      = encodeLen P.length ++ P := by
    rw [hd1, ← hjoin]
    conv_rhs => rw [hchunks]
    simp
  have h8 : (recvPrefix chunks [] 8).1.take 8 = encodeLen P.length := by
    have := congrArg (List.take 8) hfull
    rwa [List.take_append_of_le_length hreach,
      List.take_left' (encodeLen_length P.length)] at this
  have hdrop : (recvPrefix chunks [] 8).1.drop 8
      ++ (recvPrefix chunks [] 8).2.flatten = P := by
    have := congrArg (List.drop 8) hfull
    rwa [List.drop_append_of_le_length hreach,
      List.drop_left' (encodeLen_length P.length)] at this
  have hmsz : decodeLen ((recvPrefix chunks [] 8).1.take 8) = P.length := by
    rw [h8, decodeLen_encodeLen P.length hlen]
  have havail : P.length ≤ ((recvPrefix chunks [] 8).1.drop 8).length
      + (recvPrefix chunks [] 8).2.flatten.length := by
    have := congrArg List.length hdrop
    rw [List.length_append] at this
    omega
  obtain ⟨consumed2, d2, ch2, hsome, hch, hd2, hlen2⟩ :=
    recvPayload_spec (recvPrefix chunks [] 8).2
      ((recvPrefix chunks [] 8).1.drop 8) P.length havail
  have hd2full : d2 ++ ch2.flatten = P := by
    rw [hd2, ← hdrop]
    conv_rhs => rw [hch]
    simp
  have hd2len : d2.length + ch2.flatten.length = P.length := by
    have := congrArg List.length hd2full
    rw [List.length_append] at this
    exact this
  have hch2nil : ch2 = [] := by
    have hflat : ch2.flatten.length = 0 := by omega
    cases ch2 with
    | nil => rfl
    | cons c rest =>
        exfalso
        have hmem : c ∈ chunks := by
          rw [hchunks, hch]
          simp
        have hcne := hne c hmem
        have hcpos : 0 < c.length := List.length_pos.mpr hcne
        rw [List.flatten_cons, List.length_append] at hflat
        omega
  have hd2P : d2 = P := by
    rw [← hd2full, hch2nil]
    simp
  rw [receiveMsg, if_neg (by omega), hmsz, hsome, hch2nil, hd2P]
  simp

/-- Concrete witness for `frame_roundtrip`: the payload `[7]` framed as
`[1,0,0,0,0,0,0,0,7]` and delivered in four chunks is reassembled
exactly. -/
theorem frame_roundtrip_witness :
    ([7] : List Nat).length < 2 ^ 64 ∧
    (∀ c ∈ ([[1], [0, 0, 0], [0, 0, 0, 0], [7]] : List (List Nat)), c ≠ []) ∧
    ([[1], [0, 0, 0], [0, 0, 0, 0], [7]] : List (List Nat)).flatten
      = encodeLen ([7] : List Nat).length ++ [7] ∧
    receiveMsg [] [[1], [0, 0, 0], [0, 0, 0, 0], [7]]
      = RecvOutcome.ok [7] [] [] :=
  ⟨by norm_num, by decide, by decide,
    frame_roundtrip [7] [[1], [0, 0, 0], [0, 0, 0, 0], [7]]
      (by norm_num) (by decide) (by decide)⟩

/-- C2 (code bug): if the peer closes after the 8-byte prefix declaring
10 payload bytes but after delivering only 3 of them, the payload loop
of `server_mac.py` lines 185-186 / `pi_client.py` lines 132-133 spins
forever on empty reads (modelled as `RecvOutcome.hang`) instead of
failing with a channel-closed error. -/
theorem receive_hangs_on_midpayload_close :
    receiveMsg [] [encodeLen 10, [1, 2, 3]] = RecvOutcome.hang := by decide

/-! ## AttentionTracker: scene label, unattended timers, alert cooldown -/

/-- The three-way scene label of `pi_client.py` lines 207-223 /
`utensil_detector.py` lines 222-238. -/
inductive SceneLabel where
  | NOTHING
  | UNATTENDED
  | ATTENDED
  deriving DecidableEq

/-- `UNATTENDED_THRESHOLD = 2.0  # seconds` (`pi_client.py` line 84). -/
def UNATTENDED_THRESHOLD : ℚ := 2

/-- `ALERT_COOLDOWN = 5.0  # seconds` (`pi_client.py` line 85). -/
def ALERT_COOLDOWN : ℚ := 5

/-- The if/elif/elif/else chain computing `state` from
`has_utensils = len(utensil_count) > 0` and `has_hands = hand_count > 0`
(`pi_client.py` lines 204-223). `items` is the list of currently
detected utensil class names (the keys of `utensil_count`). -/
def labelOf (items : List String) (people : Bool) : SceneLabel :=
  let hasUt := !items.isEmpty
  if !hasUt && !people then .NOTHING
  else if hasUt && !people then .UNATTENDED
  else if hasUt && people then .ATTENDED
  else .NOTHING

/-- Lookup in an association list modelling a Python dict keyed by
class-name strings. -/
def lookupA (l : List (String × ℚ)) (k : String) : Option ℚ :=
  match l with
  | [] => none
  | (k', v) :: rest => if k' = k then some v else lookupA rest k

/-- Dict assignment `d[k] = v`: replace the first binding of `k`, or
append a fresh binding. -/
def insertA (l : List (String × ℚ)) (k : String) (v : ℚ) :
    List (String × ℚ) :=
  match l with
  | [] => [(k, v)]
  | (k', v') :: rest =>
      if k' = k then (k, v) :: rest else (k', v') :: insertA rest k v

/-- Dict deletion `del d[k]` guarded by `if k in d` (a no-op on an
absent key). -/
def eraseA (l : List (String × ℚ)) (k : String) : List (String × ℚ) :=
  l.filter (fun p => !(p.1 == k))

/-- Tracker state: the `utensil_first_seen` and `last_alert_time`
dictionaries of `pi_client.py` lines 82-83 / `utensil_detector.py`
lines 58-59. -/
structure TrackerState where
  firstSeen : List (String × ℚ)
  lastAlert : List (String × ℚ)
  deriving DecidableEq

/-- Both dictionaries start empty. -/
def initState : TrackerState := ⟨[], []⟩

/-- `utensil_type not in last_alert_time or current_time -
last_alert_time[utensil_type] >= ALERT_COOLDOWN` (`pi_client.py`
lines 234-235). -/
def cooldownOk (lastAlert : List (String × ℚ)) (u : String) (now : ℚ) :
    Bool :=
  match lookupA lastAlert u with
  | none => true
  | some la => decide (ALERT_COOLDOWN ≤ now - la)

/-- The body of `for utensil_type in utensil_count.keys():`
(`pi_client.py` lines 226-255): while the label is `UNATTENDED`, create
a first-seen entry or, once the threshold has elapsed and the cooldown
permits, emit an alert event and record its time; on any other label
delete the type's first-seen entry. The accumulator carries the tracker
state and the alert events `(time, type)` emitted so far this tick. -/
def procItem (unatt : Bool) (now : ℚ)
    (acc : TrackerState × List (ℚ × String)) (u : String) :
    TrackerState × List (ℚ × String) :=
  match unatt with
  | true =>
    match lookupA acc.1.firstSeen u with
    | none => ({ acc.1 with firstSeen := insertA acc.1.firstSeen u now }, acc.2)
    | some f =>
      if UNATTENDED_THRESHOLD ≤ now - f then
        if cooldownOk acc.1.lastAlert u now then
          ({ acc.1 with lastAlert := insertA acc.1.lastAlert u now },
            acc.2 ++ [(now, u)])
        else acc
      else acc
  | false =>
    ({ acc.1 with firstSeen := eraseA acc.1.firstSeen u }, acc.2)

/-- One tracker tick input: the detected utensil class names, whether
any person is detected, and `current_time`. -/
structure Tick where
  items : List String
  people : Bool
  now : ℚ
  deriving DecidableEq

/-- One full tracker tick (`pi_client.py` lines 203-260): compute the
label, run the per-type loop, then the sweep of lines 257-260 deleting
every `utensil_first_seen` entry whose type is no longer detected.
The `last_alert_time` dictionary is never swept. -/
def tick (st : TrackerState) (tk : Tick) :
    TrackerState × List (ℚ × String) :=
  let r := tk.items.foldl
    (procItem (decide (labelOf tk.items tk.people = SceneLabel.UNATTENDED))
      tk.now) (st, [])
  ({ r.1 with
      firstSeen := r.1.firstSeen.filter (fun p => decide (p.1 ∈ tk.items)) },
    r.2)

/-- A run of the tracker over a timestamped tick sequence, collecting
all alert events in order. -/
def run (st : TrackerState) : List Tick → TrackerState × List (ℚ × String)
  | [] => (st, [])
  | tk :: rest =>
    let r := tick st tk
    let r' := run r.1 rest
    (r'.1, r.2 ++ r'.2)

/-- C8: the overall label is `NOTHING` when no items are detected
(whether or not people are present — people alone are never reported),
`ATTENDED` when items and people are both present, and `UNATTENDED`
when items are present without people. -/
theorem labelOf_cases (items : List String) (people : Bool) :
    labelOf items people =
      if items.isEmpty then SceneLabel.NOTHING
      else if people then SceneLabel.ATTENDED
      else SceneLabel.UNATTENDED := by
  cases items <;> cases people <;> simp [labelOf]

/-- Scenario 1 of the spec: a fork continuously unattended at ticks
t = 0.0, 1.9, 2.0. -/
def scenario1 : List Tick :=
  [⟨["fork"], false, 0⟩, ⟨["fork"], false, 19/10⟩, ⟨["fork"], false, 2⟩]

/-- C4: over scenario 1's ticks the tracker creates the fork entry at
t = 0 (`firstUnattendedAt = 0`), emits no alert at t = 0 or t = 1.9,
and emits exactly one alert, for `fork`, at the t = 2.0 tick, where
`now - firstUnattendedAt` first reaches the 2.0 s threshold. -/
theorem threshold_boundary_scenario1 :
    run initState scenario1 =
      (⟨[("fork", 0)], [("fork", 2)]⟩, [((2 : ℚ), "fork")]) := by
  norm_num [run, tick, procItem, lookupA, insertA, eraseA, cooldownOk,
    labelOf, initState, scenario1, UNATTENDED_THRESHOLD, ALERT_COOLDOWN]

/-- Scenario 1-3 of the spec: the fork is unattended (t = 0, 1.9, 2.0,
alert at 2.0), attended at t = 2.1, unattended again from t = 2.2, and
still unattended at t = 4.2. -/
def scenario123 : List Tick :=
  scenario1 ++
    [⟨["fork"], true, 21/10⟩, ⟨["fork"], false, 11/5⟩, ⟨["fork"], false, 21/5⟩]

/-- C1 counterexample: after the attended tick at t = 2.1 deletes the
fork's first-seen entry, a fresh entry with `firstUnattendedAt = 2.2`
is indeed created at t = 2.2 — but the alert list of the whole run is
still only the t = 2.0 alert: no alert is emitted at the t = 4.2 tick
(the first tick with `now ≥ 4.2`), because `last_alert_time` retained
the 2.0 alert and `4.2 - 2.0 < ALERT_COOLDOWN`. This refutes the claim
that the threshold alone decides and the next alert fires at 4.2. -/
theorem no_alert_at_4_2_scenario123 :
    run initState scenario123 =
      (⟨[("fork", 11/5)], [("fork", 2)]⟩, [((2 : ℚ), "fork")]) := by
  norm_num [run, tick, procItem, lookupA, insertA, eraseA, cooldownOk,
    labelOf, initState, scenario123, scenario1, UNATTENDED_THRESHOLD,
    ALERT_COOLDOWN]
  simp

/-- Scenario 1-3 continued past t = 4.2 with unattended ticks at
t = 6.9 and t = 7.0. -/
def scenario123ext : List Tick :=
  scenario123 ++ [⟨["fork"], false, 69/10⟩, ⟨["fork"], false, 7⟩]

/-- C1 amended: the re-transition at t = 2.2 creates a fresh entry with
`firstUnattendedAt = 2.2` and no first-seen history, but the per-type
last-alert time from the t = 2.0 alert is retained in the separate
`last_alert_time` dictionary; the next alert for `fork` is emitted at
the first tick with `now ≥ 7.0`, when both the 2.0 s threshold measured
from 2.2 and the 5.0 s cooldown measured from the 2.0 alert hold. -/
theorem next_alert_at_7_scenario123ext :
    run initState scenario123ext =
      (⟨[("fork", 11/5)], [("fork", 7)]⟩,
        [((2 : ℚ), "fork"), ((7 : ℚ), "fork")]) := by
  norm_num [run, tick, procItem, lookupA, insertA, eraseA, cooldownOk,
    labelOf, initState, scenario123ext, scenario123, scenario1,
    UNATTENDED_THRESHOLD, ALERT_COOLDOWN]
  simp

theorem lookupA_cons (k0 : String) (v0 : ℚ) (rest : List (String × ℚ))
    (q : String) :
    lookupA ((k0, v0) :: rest) q =
      if k0 = q then some v0 else lookupA rest q := rfl

theorem insertA_cons (k0 : String) (v0 : ℚ) (rest : List (String × ℚ))
    (k : String) (v : ℚ) :
    insertA ((k0, v0) :: rest) k v =
      if k0 = k then (k, v) :: rest else (k0, v0) :: insertA rest k v := rfl

theorem eraseA_nil (k : String) : eraseA [] k = [] := rfl

theorem eraseA_cons (k0 : String) (v0 : ℚ) (rest : List (String × ℚ))
    (k : String) :
    eraseA ((k0, v0) :: rest) k =
      if k0 = k then eraseA rest k else (k0, v0) :: eraseA rest k := by
  by_cases h : k0 = k <;> simp [eraseA, List.filter_cons, h]

theorem lookupA_insertA (l : List (String × ℚ)) (k q : String) (v : ℚ) :
    lookupA (insertA l k v) q =
      if k = q then some v else lookupA l q := by
  induction l with
  | nil => simp [insertA, lookupA]
  | cons p rest ih =>
    obtain ⟨k0, v0⟩ := p
    by_cases h0 : k0 = k
    · subst h0
      rw [insertA_cons, if_pos rfl]
      by_cases hq : k0 = q <;> simp [lookupA_cons, hq]
    · rw [insertA_cons, if_neg h0]
      by_cases hq : k0 = q
      · subst hq
        have hkq : ¬(k = k0) := fun hc => h0 hc.symm
        simp [lookupA_cons, hkq]
      · simp [lookupA_cons, hq, ih]

theorem lookupA_eraseA (l : List (String × ℚ)) (k q : String) :
    lookupA (eraseA l k) q =
      if k = q then none else lookupA l q := by
  induction l with
  | nil => simp [eraseA, lookupA]
  | cons p rest ih =>
    obtain ⟨k0, v0⟩ := p
    by_cases h0 : k0 = k
    · subst h0
      rw [eraseA_cons, if_pos rfl, ih]
      by_cases hq : k0 = q <;> simp [lookupA_cons, hq]
    · rw [eraseA_cons, if_neg h0]
      by_cases hq : k0 = q
      · subst hq
        have hkq : ¬(k = k0) := fun hc => h0 hc.symm
        simp [lookupA_cons, hkq]
      · simp [lookupA_cons, hq, ih]

theorem lookupA_filterMem (l : List (String × ℚ)) (items : List String)
    (q : String) :
    lookupA (l.filter (fun p => decide (p.1 ∈ items))) q =
      if q ∈ items then lookupA l q else none := by
  induction l with
  | nil => simp [lookupA]
  | cons p rest ih =>
    obtain ⟨k0, v0⟩ := p
    by_cases hk : k0 ∈ items
    · rw [List.filter_cons]
      by_cases hq : k0 = q
      · subst hq
        simp [lookupA_cons, hk, ih]
      · simp [lookupA_cons, hk, hq, ih]
    · rw [List.filter_cons]
      by_cases hq : k0 = q
      · subst hq
        simp [lookupA_cons, hk, ih]
      · simp [lookupA_cons, hk, hq, ih]

theorem lookupA_all_none {l : List (String × ℚ)}
    (h : ∀ k, lookupA l k = none) : l = [] := by
  cases l with
  | nil => rfl
  | cons p rest =>
    exfalso
    have := h p.1
    simp [lookupA] at this

theorem procItem_false_eq (now : ℚ) (acc : TrackerState × List (ℚ × String))
    (u : String) :
    procItem false now acc u =
      ({ acc.1 with firstSeen := eraseA acc.1.firstSeen u }, acc.2) := rfl

theorem procItem_true_some_firstSeen (now : ℚ)
    (acc : TrackerState × List (ℚ × String)) (u : String) (f : ℚ)
    (hl : lookupA acc.1.firstSeen u = some f) :
    (procItem true now acc u).1.firstSeen = acc.1.firstSeen := by
  simp only [procItem, hl]
  split
  · split <;> rfl
  · rfl

theorem procItem_true_firstSeen (now : ℚ)
    (acc : TrackerState × List (ℚ × String)) (u t : String) :
    lookupA (procItem true now acc u).1.firstSeen t =
      if u = t then some ((lookupA acc.1.firstSeen t).getD now)
      else lookupA acc.1.firstSeen t := by
  cases hl : lookupA acc.1.firstSeen u with
  | none =>
    simp only [procItem, hl]
    rw [lookupA_insertA]
    by_cases h : u = t
    · subst h
      simp [hl]
    · simp [h]
  | some f =>
    rw [procItem_true_some_firstSeen now acc u f hl]
    by_cases h : u = t
    · subst h
      simp [hl]
    · simp [h]

theorem foldProc_false_firstSeen (items : List String) (now : ℚ)
    (acc : TrackerState × List (ℚ × String)) (t : String) :
    lookupA (items.foldl (procItem false now) acc).1.firstSeen t =
      if t ∈ items then none else lookupA acc.1.firstSeen t := by
  induction items generalizing acc with
  | nil => simp
  | cons u rest ih =>
    rw [List.foldl_cons, ih]
    by_cases hr : t ∈ rest
    · simp [hr]
    · rw [procItem_false_eq]
      simp only [hr, if_false]
      rw [lookupA_eraseA]
      by_cases hu : u = t
      · subst hu
        simp
      · have : ¬(t = u) := fun hc => hu hc.symm
        simp [hu, this, hr]

theorem foldProc_true_firstSeen (items : List String) (now : ℚ)
    (acc : TrackerState × List (ℚ × String)) (t : String) :
    lookupA (items.foldl (procItem true now) acc).1.firstSeen t =
      if t ∈ items then some ((lookupA acc.1.firstSeen t).getD now)
      else lookupA acc.1.firstSeen t := by
  induction items generalizing acc with
  | nil => simp
  | cons u rest ih =>
    rw [List.foldl_cons, ih]
    by_cases hr : t ∈ rest
    · simp only [hr, if_true, List.mem_cons, hr, or_true, if_true]
      rw [procItem_true_firstSeen]
      by_cases hu : u = t
      · subst hu
        cases hl : lookupA acc.1.firstSeen u <;> simp [hl]
      · simp [hu]
    · rw [procItem_true_firstSeen]
      by_cases hu : u = t
      · subst hu
        simp [hr]
      · have : ¬(t = u) := fun hc => hu hc.symm
        simp [hu, this, hr]

/-- Characterization of `utensil_first_seen` after one tick: an entry
for `t` survives exactly when the tick's label is `UNATTENDED` and `t`
is currently detected; a fresh entry carries `now`, an existing one its
old first-seen time. -/
theorem tick_firstSeen (st : TrackerState) (tk : Tick) (t : String) :
    lookupA (tick st tk).1.firstSeen t =
      if labelOf tk.items tk.people = SceneLabel.UNATTENDED ∧ t ∈ tk.items
      then some ((lookupA st.firstSeen t).getD tk.now)
      else none := by
  by_cases hlab : labelOf tk.items tk.people = SceneLabel.UNATTENDED
  · have hdec : decide (labelOf tk.items tk.people = SceneLabel.UNATTENDED)
        = true := by simp [hlab]
    simp only [tick, hdec]
    rw [lookupA_filterMem]
    by_cases hm : t ∈ tk.items
    · rw [if_pos hm, foldProc_true_firstSeen]
      simp [hm, hlab]
    · simp [hm, hlab]
  · have hdec : decide (labelOf tk.items tk.people = SceneLabel.UNATTENDED)
        = false := by simp [hlab]
    simp only [tick, hdec]
    rw [lookupA_filterMem]
    by_cases hm : t ∈ tk.items
    · rw [if_pos hm, foldProc_false_firstSeen]
      simp [hm, hlab]
    · simp [hm, hlab]

/-- C6: for any state, a tick whose label is not `UNATTENDED` deletes
the item type's first-seen entry (whether the type is present at that
tick or absent from it), and a subsequent `UNATTENDED` tick where the
type is detected creates a fresh entry carrying that tick's timestamp —
so the threshold countdown is measured from the re-entry time, not from
the original `firstUnattendedAt`. -/
theorem reset_on_attendance (st : TrackerState) (tkMid tkRe : Tick)
    (t : String)
    (hmid : labelOf tkMid.items tkMid.people ≠ SceneLabel.UNATTENDED)
    (hre : labelOf tkRe.items tkRe.people = SceneLabel.UNATTENDED)
    (hmem : t ∈ tkRe.items) :
    lookupA (tick st tkMid).1.firstSeen t = none ∧
    lookupA (tick (tick st tkMid).1 tkRe).1.firstSeen t = some tkRe.now := by
  have h1 : lookupA (tick st tkMid).1.firstSeen t = none := by
    rw [tick_firstSeen]
    simp [hmid]
  refine ⟨h1, ?_⟩
  rw [tick_firstSeen, if_pos ⟨hre, hmem⟩, h1]
  rfl

/-- Concrete witness for `reset_on_attendance`: a fork tracked since
t = 0, attended at t = 2.1, unattended again at t = 2.2. -/
theorem reset_on_attendance_witness :
    labelOf ["fork"] true ≠ SceneLabel.UNATTENDED ∧
    labelOf ["fork"] false = SceneLabel.UNATTENDED ∧
    "fork" ∈ ["fork"] ∧
    (lookupA (tick ⟨[("fork", 0)], [("fork", 2)]⟩
        ⟨["fork"], true, 21/10⟩).1.firstSeen "fork" = none ∧
      lookupA (tick (tick ⟨[("fork", 0)], [("fork", 2)]⟩
          ⟨["fork"], true, 21/10⟩).1
        ⟨["fork"], false, 11/5⟩).1.firstSeen "fork" = some (11/5)) :=
  ⟨by decide, by decide, by decide,
    reset_on_attendance ⟨[("fork", 0)], [("fork", 2)]⟩
      ⟨["fork"], true, 21/10⟩ ⟨["fork"], false, 11/5⟩ "fork"
      (by decide) (by decide) (by decide)⟩

theorem mem_keys_insertA (l : List (String × ℚ)) (k : String) (v : ℚ)
    (a : String) :
    a ∈ (insertA l k v).map Prod.fst ↔ a ∈ l.map Prod.fst ∨ a = k := by
  induction l with
  | nil => simp [insertA]
  | cons p rest ih =>
    obtain ⟨k0, v0⟩ := p
    by_cases h0 : k0 = k
    · subst h0
      rw [insertA_cons, if_pos rfl]
      simp
      tauto
    · rw [insertA_cons, if_neg h0]
      simp [ih]
      tauto

theorem nodup_keys_insertA (l : List (String × ℚ)) (k : String) (v : ℚ)
    (h : (l.map Prod.fst).Nodup) :
    ((insertA l k v).map Prod.fst).Nodup := by
  induction l with
  | nil => simp [insertA]
  | cons p rest ih =>
    obtain ⟨k0, v0⟩ := p
    simp only [List.map_cons, List.nodup_cons] at h
    by_cases h0 : k0 = k
    · subst h0
      rw [insertA_cons, if_pos rfl]
      simp only [List.map_cons, List.nodup_cons]
      exact ⟨h.1, h.2⟩
    · rw [insertA_cons, if_neg h0]
      simp only [List.map_cons, List.nodup_cons]
      refine ⟨?_, ih h.2⟩
      intro hc
      rcases (mem_keys_insertA rest k v k0).mp hc with hm | he
      · exact h.1 hm
      · exact h0 he

theorem procItem_firstSeen_nodup (b : Bool) (now : ℚ)
    (acc : TrackerState × List (ℚ × String)) (u : String)
    (h : (acc.1.firstSeen.map Prod.fst).Nodup) :
    ((procItem b now acc u).1.firstSeen.map Prod.fst).Nodup := by
  cases b with
  | false =>
    rw [procItem_false_eq]
    exact List.Nodup.sublist (List.Sublist.map _ (List.filter_sublist _)) h
  | true =>
    cases hl : lookupA acc.1.firstSeen u with
    | none =>
      simp only [procItem, hl]
      exact nodup_keys_insertA _ _ _ h
    | some f =>
      rw [procItem_true_some_firstSeen now acc u f hl]
      exact h

theorem foldProc_firstSeen_nodup (items : List String) (b : Bool) (now : ℚ)
    (acc : TrackerState × List (ℚ × String))
    (h : (acc.1.firstSeen.map Prod.fst).Nodup) :
    (((items.foldl (procItem b now) acc).1.firstSeen).map Prod.fst).Nodup := by
  induction items generalizing acc with
  | nil => exact h
  | cons u rest ih =>
    rw [List.foldl_cons]
    exact ih _ (procItem_firstSeen_nodup b now acc u h)

/-- C9: invariant preserved by every tracker tick — assuming the
first-seen dictionary has (as a Python dict does) at most one entry per
class name, after the update it still does; every surviving entry's
class name is currently detected; and any tick whose label is not
`UNATTENDED` leaves the first-seen dictionary empty. -/
theorem tracker_tick_invariant (st : TrackerState) (tk : Tick)
    (h : (st.firstSeen.map Prod.fst).Nodup) :
    (((tick st tk).1.firstSeen).map Prod.fst).Nodup ∧
    (∀ p ∈ (tick st tk).1.firstSeen, p.1 ∈ tk.items) ∧
    (labelOf tk.items tk.people ≠ SceneLabel.UNATTENDED →
      (tick st tk).1.firstSeen = []) := by
  refine ⟨?_, ?_, ?_⟩
  · simp only [tick]
    exact List.Nodup.sublist (List.Sublist.map _ (List.filter_sublist _))
      (foldProc_firstSeen_nodup tk.items _ tk.now (st, []) h)
  · intro p hp
    simp only [tick] at hp
    rw [List.mem_filter] at hp
    exact of_decide_eq_true hp.2
  · intro hlab
    apply lookupA_all_none
    intro k
    rw [tick_firstSeen]
    simp [hlab]

/-- Concrete witness for `tracker_tick_invariant`: a state tracking a
fork and a cup hit by an attended tick detecting only the fork. -/
theorem tracker_tick_invariant_witness :
    (((⟨[("fork", 0), ("cup", 1)], []⟩ : TrackerState).firstSeen).map
        Prod.fst).Nodup ∧
    ((((tick ⟨[("fork", 0), ("cup", 1)], []⟩
        ⟨["fork"], true, 3⟩).1.firstSeen).map Prod.fst).Nodup ∧
      (∀ p ∈ (tick ⟨[("fork", 0), ("cup", 1)], []⟩
          ⟨["fork"], true, 3⟩).1.firstSeen, p.1 ∈ ["fork"]) ∧
      (labelOf ["fork"] true ≠ SceneLabel.UNATTENDED →
        (tick ⟨[("fork", 0), ("cup", 1)], []⟩
          ⟨["fork"], true, 3⟩).1.firstSeen = [])) :=
  ⟨by decide,
    tracker_tick_invariant ⟨[("fork", 0), ("cup", 1)], []⟩
      ⟨["fork"], true, 3⟩ (by decide)⟩

theorem procItem_cooldown (b : Bool) (now : ℚ)
    (acc : TrackerState × List (ℚ × String)) (u t : String) (la : ℚ)
    (h : lookupA acc.1.lastAlert t = some la) :
    (∃ la', lookupA (procItem b now acc u).1.lastAlert t = some la' ∧
      la ≤ la') ∧
    (∀ e ∈ (procItem b now acc u).2,
      e ∈ acc.2 ∨ (e.2 = t → la + ALERT_COOLDOWN ≤ e.1)) := by
  cases b with
  | false => exact ⟨⟨la, h, le_refl la⟩, fun e he => Or.inl he⟩
  | true =>
    cases hl : lookupA acc.1.firstSeen u with
    | none =>
      simp only [procItem, hl]
      exact ⟨⟨la, h, le_refl la⟩, fun e he => Or.inl he⟩
    | some f =>
      simp only [procItem, hl]
      by_cases hth : UNATTENDED_THRESHOLD ≤ now - f
      · rw [if_pos hth]
        by_cases hcd : cooldownOk acc.1.lastAlert u now = true
        · rw [if_pos hcd]
          by_cases hut : u = t
          · subst hut
            have hle : ALERT_COOLDOWN ≤ now - la := by
              unfold cooldownOk at hcd
              rw [h] at hcd
              exact of_decide_eq_true hcd
            have hA : (0 : ℚ) ≤ ALERT_COOLDOWN := by
              norm_num [ALERT_COOLDOWN]
            refine ⟨⟨now, ?_, by linarith⟩, ?_⟩
            · rw [lookupA_insertA]
              simp
            · intro e he
              simp only [List.mem_append, List.mem_singleton] at he
              rcases he with he | he
              · exact Or.inl he
              · subst he
                refine Or.inr fun _ => ?_
                show la + ALERT_COOLDOWN ≤ now
                linarith
          · refine ⟨⟨la, ?_, le_refl la⟩, ?_⟩
            · rw [lookupA_insertA, if_neg hut]
              exact h
            · intro e he
              simp only [List.mem_append, List.mem_singleton] at he
              rcases he with he | he
              · exact Or.inl he
              · subst he
                refine Or.inr fun het => ?_
                exact absurd het hut
        · rw [if_neg hcd]
          exact ⟨⟨la, h, le_refl la⟩, fun e he => Or.inl he⟩
      · rw [if_neg hth]
        exact ⟨⟨la, h, le_refl la⟩, fun e he => Or.inl he⟩

theorem foldProc_cooldown (items : List String) (b : Bool) (now : ℚ)
    (acc : TrackerState × List (ℚ × String)) (t : String) (la : ℚ)
    (h : lookupA acc.1.lastAlert t = some la) :
    (∃ la', lookupA (items.foldl (procItem b now) acc).1.lastAlert t
        = some la' ∧ la ≤ la') ∧
    (∀ e ∈ (items.foldl (procItem b now) acc).2,
      e ∈ acc.2 ∨ (e.2 = t → la + ALERT_COOLDOWN ≤ e.1)) := by
  induction items generalizing acc la with
  | nil => exact ⟨⟨la, h, le_refl la⟩, fun e he => Or.inl he⟩
  | cons u rest ih =>
    rw [List.foldl_cons]
    obtain ⟨⟨la1, hla1, hle1⟩, hev1⟩ := procItem_cooldown b now acc u t la h
    obtain ⟨⟨la2, hla2, hle2⟩, hev2⟩ := ih (procItem b now acc u) la1 hla1
    refine ⟨⟨la2, hla2, le_trans hle1 hle2⟩, ?_⟩
    intro e he
    rcases hev2 e he with he1 | hp
    · exact hev1 e he1
    · refine Or.inr fun het => ?_
      have := hp het
      linarith

theorem tick_cooldown (st : TrackerState) (tk : Tick) (t : String) (la : ℚ)
    (h : lookupA st.lastAlert t = some la) :
    (∃ la', lookupA (tick st tk).1.lastAlert t = some la' ∧ la ≤ la') ∧
    (∀ e ∈ (tick st tk).2, e.2 = t → la + ALERT_COOLDOWN ≤ e.1) := by
  obtain ⟨hex, hev⟩ := foldProc_cooldown tk.items
    (decide (labelOf tk.items tk.people = SceneLabel.UNATTENDED)) tk.now
    (st, []) t la h
  refine ⟨hex, ?_⟩
  intro e he het
  rcases hev e he with h0 | hp
  · exact absurd h0 (List.not_mem_nil e)
  · exact hp het

theorem run_cooldown (ticks : List Tick) (st : TrackerState) (t : String)
    (la : ℚ) (h : lookupA st.lastAlert t = some la) :
    (∃ la', lookupA (run st ticks).1.lastAlert t = some la' ∧ la ≤ la') ∧
    (∀ e ∈ (run st ticks).2, e.2 = t → la + ALERT_COOLDOWN ≤ e.1) := by
  induction ticks generalizing st la with
  | nil => exact ⟨⟨la, h, le_refl la⟩, by simp [run]⟩
  | cons tk rest ih =>
    obtain ⟨⟨la1, hla1, hle1⟩, hev1⟩ := tick_cooldown st tk t la h
    obtain ⟨⟨la2, hla2, hle2⟩, hev2⟩ := ih (tick st tk).1 la1 hla1
    constructor
    · exact ⟨la2, hla2, le_trans hle1 hle2⟩
    · intro e he het
      simp only [run, List.mem_append] at he
      rcases he with he | he
      · exact hev1 e he het
      · have := hev2 e he het
        linarith

/-- C7: the per-type last-alert dictionary is never cleared by any
tracker step (the deletion steps touch only the first-seen dictionary),
so once an alert for type `t` stands recorded at time `la`, every run —
through attendance, disappearance, entry deletion and fresh re-creation
alike — keeps a last-alert entry for `t` (only ever moved later), and
every alert it emits for `t` is at a tick time at least
`la + ALERT_COOLDOWN`. -/
theorem lastAlert_never_cleared (ticks : List Tick) (st : TrackerState)
    (t : String) (la : ℚ) (h : lookupA st.lastAlert t = some la) :
    (∃ la', lookupA (run st ticks).1.lastAlert t = some la' ∧ la ≤ la') ∧
    (∀ e ∈ (run st ticks).2, e.2 = t → la + ALERT_COOLDOWN ≤ e.1) :=
  run_cooldown ticks st t la h

/-- Concrete witness for `lastAlert_never_cleared`: a fork alerted at
time 0, then an unattended tick at time 3 (entry fresh, no alert). -/
theorem lastAlert_never_cleared_witness :
    lookupA (⟨[], [("fork", 0)]⟩ : TrackerState).lastAlert "fork"
      = some 0 ∧
    ((∃ la', lookupA (run ⟨[], [("fork", 0)]⟩
        [⟨["fork"], false, 3⟩]).1.lastAlert "fork" = some la' ∧
        (0 : ℚ) ≤ la') ∧
      (∀ e ∈ (run ⟨[], [("fork", 0)]⟩ [⟨["fork"], false, 3⟩]).2,
        e.2 = "fork" → (0 : ℚ) + ALERT_COOLDOWN ≤ e.1)) :=
  ⟨by simp [lookupA],
    lastAlert_never_cleared [⟨["fork"], false, 3⟩] ⟨[], [("fork", 0)]⟩
      "fork" 0 (by simp [lookupA])⟩

theorem procItem_invpw (b : Bool) (now : ℚ)
    (acc : TrackerState × List (ℚ × String)) (u : String)
    (hinv : ∀ e ∈ acc.2,
      ∃ la, lookupA acc.1.lastAlert e.2 = some la ∧ e.1 ≤ la)
    (hpw : acc.2.Pairwise
      (fun a b => a.2 = b.2 → a.1 + ALERT_COOLDOWN ≤ b.1)) :
    (∀ e ∈ (procItem b now acc u).2,
      ∃ la, lookupA (procItem b now acc u).1.lastAlert e.2 = some la ∧
        e.1 ≤ la) ∧
    (procItem b now acc u).2.Pairwise
      (fun a b => a.2 = b.2 → a.1 + ALERT_COOLDOWN ≤ b.1) := by
  cases b with
  | false => exact ⟨hinv, hpw⟩
  | true =>
    cases hl : lookupA acc.1.firstSeen u with
    | none =>
      simp only [procItem, hl]
      exact ⟨hinv, hpw⟩
    | some f =>
      simp only [procItem, hl]
      by_cases hth : UNATTENDED_THRESHOLD ≤ now - f
      · rw [if_pos hth]
        by_cases hcd : cooldownOk acc.1.lastAlert u now = true
        · rw [if_pos hcd]
          have hA : (0 : ℚ) ≤ ALERT_COOLDOWN := by norm_num [ALERT_COOLDOWN]
          constructor
          · intro e he
            simp only [List.mem_append, List.mem_singleton] at he
            rcases he with he | he
            · obtain ⟨la, hla, hle⟩ := hinv e he
              by_cases heu : e.2 = u
              · refine ⟨now, ?_, ?_⟩
                · rw [lookupA_insertA, if_pos heu.symm]
                · have h5 : ALERT_COOLDOWN ≤ now - la := by
                    unfold cooldownOk at hcd
                    rw [heu] at hla
                    rw [hla] at hcd
                    exact of_decide_eq_true hcd
                  linarith
              · refine ⟨la, ?_, hle⟩
                rw [lookupA_insertA, if_neg (fun hc => heu hc.symm)]
                exact hla
            · subst he
              refine ⟨now, ?_, le_refl now⟩
              show lookupA (insertA acc.1.lastAlert u now) u = some now
              rw [lookupA_insertA]
              simp
          · rw [List.pairwise_append]
            refine ⟨hpw, List.pairwise_singleton _ _, ?_⟩
            intro a ha b hb
            simp only [List.mem_singleton] at hb
            subst hb
            intro hab
            obtain ⟨la, hla, hle⟩ := hinv a ha
            have hau : a.2 = u := hab
            have h5 : ALERT_COOLDOWN ≤ now - la := by
              unfold cooldownOk at hcd
              rw [hau] at hla
              rw [hla] at hcd
              exact of_decide_eq_true hcd
            show a.1 + ALERT_COOLDOWN ≤ now
            linarith
        · rw [if_neg hcd]
          exact ⟨hinv, hpw⟩
      · rw [if_neg hth]
        exact ⟨hinv, hpw⟩

theorem foldProc_invpw (items : List String) (b : Bool) (now : ℚ)
    (acc : TrackerState × List (ℚ × String))
    (hinv : ∀ e ∈ acc.2,
      ∃ la, lookupA acc.1.lastAlert e.2 = some la ∧ e.1 ≤ la)
    (hpw : acc.2.Pairwise
      (fun a b => a.2 = b.2 → a.1 + ALERT_COOLDOWN ≤ b.1)) :
    (∀ e ∈ (items.foldl (procItem b now) acc).2,
      ∃ la, lookupA (items.foldl (procItem b now) acc).1.lastAlert e.2
        = some la ∧ e.1 ≤ la) ∧
    (items.foldl (procItem b now) acc).2.Pairwise
      (fun a b => a.2 = b.2 → a.1 + ALERT_COOLDOWN ≤ b.1) := by
  induction items generalizing acc with
  | nil => exact ⟨hinv, hpw⟩
  | cons u rest ih =>
    rw [List.foldl_cons]
    obtain ⟨hinv1, hpw1⟩ := procItem_invpw b now acc u hinv hpw
    exact ih (procItem b now acc u) hinv1 hpw1

theorem tick_invpw (st : TrackerState) (tk : Tick) :
    (∀ e ∈ (tick st tk).2,
      ∃ la, lookupA (tick st tk).1.lastAlert e.2 = some la ∧ e.1 ≤ la) ∧
    (tick st tk).2.Pairwise
      (fun a b => a.2 = b.2 → a.1 + ALERT_COOLDOWN ≤ b.1) := by
  obtain ⟨hinv, hpw⟩ := foldProc_invpw tk.items
    (decide (labelOf tk.items tk.people = SceneLabel.UNATTENDED)) tk.now
    (st, []) (by simp) List.Pairwise.nil
  exact ⟨hinv, hpw⟩

theorem run_pairwise (ticks : List Tick) (st : TrackerState) :
    (run st ticks).2.Pairwise
      (fun a b => a.2 = b.2 → a.1 + ALERT_COOLDOWN ≤ b.1) := by
  induction ticks generalizing st with
  | nil => simp [run]
  | cons tk rest ih =>
    show ((tick st tk).2 ++ (run (tick st tk).1 rest).2).Pairwise _
    rw [List.pairwise_append]
    refine ⟨(tick_invpw st tk).2, ih (tick st tk).1, ?_⟩
    intro a ha b hb hab
    obtain ⟨la, hla, hle⟩ := (tick_invpw st tk).1 a ha
    have hb5 := (run_cooldown rest (tick st tk).1 a.2 la hla).2 b hb hab.symm
    linarith

/-- C5: in every run from the initial (empty) tracker state with weakly
increasing tick timestamps, any two alert events emitted for the same
item type are separated by at least `ALERT_COOLDOWN` seconds, even when
the unattended condition holds at every tick in between. -/
theorem cooldown_enforced (ticks : List Tick)
    (_hmono : List.Chain' (fun a b => a.now ≤ b.now) ticks) :
    (run initState ticks).2.Pairwise
      (fun a b => a.2 = b.2 → a.1 + ALERT_COOLDOWN ≤ b.1) :=
  run_pairwise ticks initState

/-- Concrete witness for `cooldown_enforced`: a fork unattended at
t = 0, 2, 7, alerting at t = 2 and t = 7, exactly 5 s apart. -/
theorem cooldown_enforced_witness :
    List.Chain' (fun a b => a.now ≤ b.now)
      ([⟨["fork"], false, 0⟩, ⟨["fork"], false, 2⟩,
        ⟨["fork"], false, 7⟩] : List Tick) ∧
    (run initState ([⟨["fork"], false, 0⟩, ⟨["fork"], false, 2⟩,
        ⟨["fork"], false, 7⟩] : List Tick)).2.Pairwise
      (fun a b => a.2 = b.2 → a.1 + ALERT_COOLDOWN ≤ b.1) :=
  ⟨by norm_num [List.chain'_cons, List.chain'_singleton],
    cooldown_enforced
      ([⟨["fork"], false, 0⟩, ⟨["fork"], false, 2⟩,
        ⟨["fork"], false, 7⟩] : List Tick)
      (by norm_num [List.chain'_cons, List.chain'_singleton])⟩

/-! ## DetectionServer: session loop and accept loop -/

/-- One request/response exchange of the server's inner loop
(`server_mac.py` lines 169-202), with the outcomes of its three
effectful phases abstracted as inputs: the frame receive, the
`process_frame` detector call, and the result send. A phase's `Except`
error models the exception it would raise. -/
structure Exchange where
  recv : Except String Nat
  detect : Except String Nat
  send : Except String Unit

/-- The first exception raised during an exchange, in program order
(receive, then detect, then send), if any. -/
def firstError (ex : Exchange) : Option String :=
  match ex.recv with
  | .error e => some e
  | .ok _ =>
    match ex.detect with
    | .error e => some e
    | .ok _ =>
      match ex.send with
      | .error e => some e
      | .ok _ => none

/-- How a server session ends: a clean client close (the length-prefix
loop breaks out of the inner loop), or an exception caught by the
`except` clause of `server_mac.py` lines 216-219. -/
inductive SessionEnd where
  | cleanClose
  | errored (e : String)
  deriving DecidableEq

/-- Result of one session: how many exchanges completed, how the
session ended, and whether the client socket was closed (the `finally`
clause of lines 220-222 runs on every path, so this is `true` on every
branch of `runSession`). -/
structure SessionResult where
  processed : Nat
  ending : SessionEnd
  socketClosed : Bool
  deriving DecidableEq

/-- The server's inner per-connection loop (`server_mac.py` lines
169-219): exchanges are processed in order; the first exception ends
the session with that error and nothing after it is attempted;
exhausting the exchanges models the client closing cleanly. Every exit
path closes the client socket. -/
def runSession : List Exchange → SessionResult
  | [] => ⟨0, .cleanClose, true⟩
  | ex :: rest =>
    match firstError ex with
    | some e => ⟨0, .errored e, true⟩
    | none =>
      let r := runSession rest
      ⟨r.processed + 1, r.ending, r.socketClosed⟩

/-- The outer accept loop (`server_mac.py` lines 158-222): each
accepted connection is serviced in full, independently, one after the
other; after any session ends — cleanly or with an error — the server
returns to `accept` for the next connection. -/
def runServer (sessions : List (List Exchange)) : List SessionResult :=
  sessions.map runSession

theorem runSession_ok_cons (ex : Exchange) (rest : List Exchange)
    (h : firstError ex = none) :
    runSession (ex :: rest) =
      ⟨(runSession rest).processed + 1, (runSession rest).ending,
        (runSession rest).socketClosed⟩ := by
  simp only [runSession, h]

theorem runSession_err_cons (ex : Exchange) (rest : List Exchange)
    (e : String) (h : firstError ex = some e) :
    runSession (ex :: rest) = ⟨0, .errored e, true⟩ := by
  simp only [runSession, h]

/-- C10: when an exchange fails (receive, detector or send raising),
the session ends right there — the exchanges before it are each
processed exactly once, the failing one and everything after it
contribute nothing (the result does not depend on `post`: no retry) —
the client socket is closed, and the server's accept loop goes on to
service every other session unchanged. -/
theorem server_session_error_handling (pre : List Exchange) (ex : Exchange)
    (post : List Exchange) (e : String) (s1 s2 : List (List Exchange))
    (hpre : ∀ x ∈ pre, firstError x = none)
    (herr : firstError ex = some e) :
    runSession (pre ++ ex :: post) =
      ⟨pre.length, .errored e, true⟩ ∧
    runServer (s1 ++ (pre ++ ex :: post) :: s2) =
      runServer s1 ++ ⟨pre.length, .errored e, true⟩ :: runServer s2 := by
  have hsession : runSession (pre ++ ex :: post) =
      ⟨pre.length, .errored e, true⟩ := by
    induction pre with
    | nil =>
      simpa using runSession_err_cons ex post e herr
    | cons x xs ih =>
      have hx : firstError x = none := hpre x (List.mem_cons_self x xs)
      have hxs : ∀ y ∈ xs, firstError y = none :=
        fun y hy => hpre y (List.mem_cons_of_mem x hy)
      rw [List.cons_append, runSession_ok_cons x _ hx, ih hxs]
      simp
  refine ⟨hsession, ?_⟩
  simp only [runServer, List.map_append, List.map_cons, hsession]

/-- Concrete witness for `server_session_error_handling`: one good
exchange, then a detector failure, then an unreached exchange, between
two other sessions. -/
theorem server_session_error_handling_witness :
    (∀ x ∈ [Exchange.mk (.ok 1) (.ok 10) (.ok ())],
      firstError x = none) ∧
    firstError (Exchange.mk (.ok 2) (.error "detector") (.ok ()))
      = some "detector" ∧
    (runSession ([Exchange.mk (.ok 1) (.ok 10) (.ok ())] ++
        Exchange.mk (.ok 2) (.error "detector") (.ok ()) ::
          [Exchange.mk (.ok 3) (.ok 30) (.ok ())]) =
      ⟨1, .errored "detector", true⟩ ∧
    runServer ([[]] ++ ([Exchange.mk (.ok 1) (.ok 10) (.ok ())] ++
        Exchange.mk (.ok 2) (.error "detector") (.ok ()) ::
          [Exchange.mk (.ok 3) (.ok 30) (.ok ())]) :: [[]]) =
      runServer [[]] ++ ⟨1, .errored "detector", true⟩ :: runServer [[]]) :=
  ⟨by decide, by decide,
    server_session_error_handling
      [Exchange.mk (.ok 1) (.ok 10) (.ok ())]
      (Exchange.mk (.ok 2) (.error "detector") (.ok ()))
      [Exchange.mk (.ok 3) (.ok 30) (.ok ())] "detector" [[]] [[]]
      (by decide) (by decide)⟩

end BomDotCom
